import Mathlib

/-!
Verification of the `drrepltool` copy command (`copy-main.go`).

The manifest-scanning driver (`copyAction`, `checkCopyArgsAndInit`,
`initMinioClient`) is embedded from the source file.  The concurrent core
(`copyState`: queue, worker pool, ledger) is declared in a file of the
repository that is not available here; those parts are modelled from the
specification and are marked as such in their doc comments.

Strings are modelled as `List Char`; Go `string` values are immutable byte
strings, and every operation used by the program (`strings.SplitN` with the
one-character separator ",", `strings.TrimSpace`, equality with a literal)
acts the same on the character-list model.
-/

set_option autoImplicit false

/-- Whitespace predicate of Go `unicode.IsSpace`, used by `strings.TrimSpace`:
ASCII whitespace, NEL, NBSP and the Unicode `White_Space` code points. -/
def isGoSpace (c : Char) : Bool :=
  c.val = 9 || c.val = 10 || c.val = 11 || c.val = 12 || c.val = 13 || c.val = 32 ||
  c.val = 0x85 || c.val = 0xA0 || c.val = 0x1680 ||
  (0x2000 ≤ c.val && c.val ≤ 0x200A) ||
  c.val = 0x2028 || c.val = 0x2029 || c.val = 0x202F || c.val = 0x205F || c.val = 0x3000

/-- Drop leading Go whitespace. -/
def trimLeftSpace : List Char → List Char
  | [] => []
  | c :: cs => if isGoSpace c then trimLeftSpace cs else c :: cs

/-- Go `strings.TrimSpace`: drop leading and trailing whitespace. -/
def trimSpace (s : List Char) : List Char :=
  (trimLeftSpace (trimLeftSpace s).reverse).reverse

/-- Go `strings.SplitN(s, ",", n)` for `n ≥ 1`, in accumulator form: `acc`
holds the current piece reversed, `n` counts the separators still allowed
to split.  When `n` reaches 0 the rest of the string is one unsplit piece. -/
def goSplitNAux (acc : List Char) (s : List Char) (n : Nat) : List (List Char) :=
  match s, n with
  | [], _ => [acc.reverse]
  | c :: cs, 0 => [acc.reverse ++ c :: cs]
  | c :: cs, n + 1 =>
    if c = ',' then acc.reverse :: goSplitNAux [] cs n
    else goSplitNAux (c :: acc) cs (n + 1)

/-- Go `strings.SplitN(s, ",", n)`: at most `n` pieces, the last piece is the
unsplit remainder; `n = 0` yields the empty slice. -/
def goSplitN (s : List Char) (n : Nat) : List (List Char) :=
  match n with
  | 0 => []
  | n + 1 => goSplitNAux [] s n

/-- Go `strings.Split(s, ",")`: the unbounded split, used as the reference
notion of "comma-separated fields" of a manifest line. -/
def fullSplitAux (acc : List Char) : List Char → List (List Char)
  | [] => [acc.reverse]
  | c :: cs =>
    if c = ',' then acc.reverse :: fullSplitAux [] cs
    else fullSplitAux (c :: acc) cs

/-- All comma-separated fields of a line. -/
def fullSplit (s : List Char) : List (List Char) :=
  fullSplitAux [] s

/-- Join pieces back with "," (inverse of `fullSplit`). -/
def joinComma : List (List Char) → List Char
  | [] => []
  | [x] => x
  | x :: y :: ys => x ++ ',' :: joinComma (y :: ys)

/-- The literal "true" compared against the trimmed 4th piece. -/
def trueLit : List Char := ("true").data

/-- The `objInfo` record built by `copyAction` from a manifest line. -/
structure ObjInfo where
  bucket : List Char
  object : List Char
  versionID : List Char
  deleteMarker : Bool
deriving DecidableEq, Repr

/-- Outcome of the loop body of `copyAction` on one non-skipped line.
`panic` is Go's index-out-of-range run-time panic, carrying whether the
malformed-line message was logged before the panic and the first
out-of-range index accessed; `ok` carries the logged flag and the record
that is enqueued. -/
inductive LineResult where
  | panic (logged : Bool) (idx : Nat)
  | ok (logged : Bool) (obj : ObjInfo)
deriving DecidableEq, Repr

/-- The loop body of `copyAction` on one non-skipped line `o`:
`slc := strings.SplitN(o, ",", 4)`; if `len(slc) < 3 || len(slc) > 4` a
debug message is logged (the loop does not skip the line); then the
`objInfo` literal evaluates `slc[0]`, `slc[1]`, `slc[2]`, `slc[3]` in order,
panicking at the first index `≥ len(slc)`. -/
def processLine (o : List Char) : LineResult :=
  let slc := goSplitN o 4
  let logged : Bool := decide (slc.length < 3) || decide (slc.length > 4)
  match slc with
  | a :: b :: c :: d :: _ =>
    .ok logged ⟨trimSpace a, trimSpace b, trimSpace c, trimSpace d = trueLit⟩
  | rest => .panic logged rest.length

/-- Observable events of the manifest scan loop. -/
inductive Event where
  | logMalformed (line : List Char)
  | enqueue (obj : ObjInfo)
  | logAdding (line : List Char)
deriving DecidableEq, Repr

/-- Events produced by one non-skipped line, and whether the process
panicked on it. -/
def lineTrace (o : List Char) : List Event × Bool :=
  match processLine o with
  | .panic lg _ => ((if lg then [.logMalformed o] else []), true)
  | .ok lg obj =>
    ((if lg then [.logMalformed o] else []) ++ [.enqueue obj, .logAdding o], false)

/-- The scan loop of `copyAction` over the manifest lines with the `--skip`
counter: while `skip > 0` each line is consumed without any processing;
afterwards each line runs `lineTrace`, and a panic aborts the loop (and the
process).  Returns the event trace and whether the process panicked. -/
def runScan : List (List Char) → Nat → List Event × Bool
  | [], _ => ([], false)
  | _ :: rest, skip + 1 => runScan rest skip
  | o :: rest, 0 =>
    match lineTrace o with
    | (evs, true) => (evs, true)
    | (evs, false) =>
      match runScan rest 0 with
      | (evs', crashed) => (evs ++ evs', crashed)

/-- Modelled from the spec: the Replication Ledger of `copyState` (declared
in a repository file that is not available): two concurrency-safe counters,
total processed and total failed (spec §4.4, §3 Session State). -/
structure Ledger where
  processed : Nat
  failed : Nat
deriving DecidableEq, Repr

/-- Completion outcome of one replication task. -/
inductive TaskOutcome where
  | success
  | failure
deriving DecidableEq, Repr

/-- Modelled from the spec: how a worker completion updates the ledger
(spec §4.2 steps 4–5): every completed task increments the processed
counter, a failed task additionally increments the failed counter; nothing
is ever decremented. -/
def Ledger.record : Ledger → TaskOutcome → Ledger
  | ⟨p, f⟩, .success => ⟨p + 1, f⟩
  | ⟨p, f⟩, .failure => ⟨p + 1, f + 1⟩

/-- Ledger after a sequence of task completions. -/
def runLedger (init : Ledger) (ts : List TaskOutcome) : Ledger :=
  ts.foldl Ledger.record init

/-- Number of failed completions in a trace. -/
def countFailures : List TaskOutcome → Nat
  | [] => 0
  | .failure :: ts => countFailures ts + 1
  | .success :: ts => countFailures ts

/-- A Storage Gateway network operation (spec §6). -/
inductive GatewayCall where
  | getObjectVersion (bucket object versionID : List Char)
  | putObjectVersion (bucket object versionID : List Char)
  | deleteObjectVersion (bucket object versionID : List Char)
deriving DecidableEq, Repr

/-- Modelled from the spec: the per-record decision logic of a worker
(spec §4.2, executed by `copyState`'s pool, declared in a repository file
that is not available).  In dry-run mode the action is only logged and the
processed counter incremented, with no network operation; otherwise a
delete-marker record issues one target delete and any other record issues a
source read and a target write, and the ledger records the outcome supplied
by the `outcome` oracle. -/
def workerStep (dryRun : Bool) (outcome : ObjInfo → TaskOutcome)
    (st : Ledger × List GatewayCall) (r : ObjInfo) : Ledger × List GatewayCall :=
  if dryRun then (st.1.record .success, st.2)
  else if r.deleteMarker then
    (st.1.record (outcome r), st.2 ++ [.deleteObjectVersion r.bucket r.object r.versionID])
  else
    (st.1.record (outcome r),
      st.2 ++ [.getObjectVersion r.bucket r.object r.versionID,
               .putObjectVersion r.bucket r.object r.versionID])

/-- A whole pass of the worker pool over a record list, starting from the
fresh session ledger, collecting the Storage Gateway calls issued. -/
def workerRun (dryRun : Bool) (outcome : ObjInfo → TaskOutcome) (rs : List ObjInfo) :
    Ledger × List GatewayCall :=
  rs.foldl (workerStep dryRun outcome) (⟨0, 0⟩, [])

/-- Decimal digit character. -/
def digitChar (d : Nat) : Char := Char.ofNat (48 + d)

/-- Little-endian decimal digits of `n`, with fuel for structural recursion
(fuel `≥ n` suffices). -/
def natDecAux : Nat → Nat → List Char
  | 0, _ => []
  | _ + 1, 0 => []
  | fuel + 1, n + 1 => digitChar ((n + 1) % 10) :: natDecAux fuel ((n + 1) / 10)

/-- Decimal rendering of a natural number, most significant digit first. -/
def natDec (n : Nat) : List Char :=
  if n = 0 then [('0')] else (natDecAux n n).reverse

/-- Insert "," after every three digits counting from the right; the
argument and result are reversed (least significant digit first). -/
def groupRev : List Char → Nat → List Char
  | [], _ => []
  | [c], _ => [c]
  | c :: cs, 0 => c :: ',' :: groupRev cs 2
  | c :: cs, k + 1 => c :: groupRev cs k

/-- Digit grouping of a decimal rendering, most significant digit first. -/
def commaGroup (ds : List Char) : List Char := (groupRev ds.reverse 2).reverse

/-- Go `humanize.Comma(int64)`: decimal rendering with "," thousand
separators. -/
def humanizeComma (i : Int) : List Char :=
  if i < 0 then '-' :: commaGroup (natDec i.natAbs) else commaGroup (natDec i.toNat)

/-- Go `fmt.Sprintf("%d", i)` for an `int64`. -/
def intDec (i : Int) : List Char :=
  if i < 0 then '-' :: natDec i.natAbs else natDec i.toNat

/-- The dry-run completion notice of `copyAction`. -/
def strDryRunComplete : List Char := ("copy dry run complete").data

/-- The final line printed by `copyAction` after `copyState.finish` returns
(source lines 240–247): in dry-run mode the fixed completion notice,
otherwise the `fmt.Sprintf` of `count := getCount() - getFailCount()` and
`getCount()` through `humanize.Comma`, with the elapsed whole seconds. -/
def finalReport (dryRun : Bool) (processed failed : Nat) (latencySecs : Int) : List Char :=
  if dryRun then strDryRunComplete
  else
    ("Copied ").data ++ humanizeComma ((processed : Int) - (failed : Int)) ++
    (" / ").data ++ humanizeComma ((processed : Int)) ++
    (" objects with latency ").data ++ intDec latencySecs ++ (" secs").data

/-- Value of a little-endian decimal digit list. -/
def valLE : List Char → Nat
  | [] => 0
  | c :: cs => (c.toNat - 48) + 10 * valLE cs

/-- Keep a character unless it is the "," separator. -/
def notComma (c : Char) : Bool := if c = ',' then false else true

/-- Drop "," separators and read the remaining decimal digits (most
significant first): the value a reader extracts from a comma-grouped
number in the report. -/
def decommaVal (s : List Char) : Nat :=
  valLE ((s.filter notComma).reverse)

/-- The command-line flag values read by `checkCopyArgsAndInit` and
`copyAction`; a missing string flag is the empty string, as in `cli`. -/
structure Flags where
  tgtEndpoint : List Char
  tgtAccessKey : List Char
  tgtSecretKey : List Char
  tgtBucket : List Char
  srcEndpoint : List Char
  srcAccessKey : List Char
  srcSecretKey : List Char
  srcBucket : List Char
  dirPath : List Char
  skip : Nat
  fake : Bool

/-- `checkCopyArgsAndInit` (source lines 99–147): the first missing required
flag produces a fatal log message (`log.Fatalln` / `console.Fatalln`
terminate the process); `none` means all required flags are present. -/
def checkCopyArgsAndInit (f : Flags) : Option (List Char) :=
  if f.tgtEndpoint = [] then some (("--endpoint is not provided for target").data)
  else if f.tgtAccessKey = [] then some (("--access-key is not provided for target").data)
  else if f.tgtSecretKey = [] then some (("--secret-key is not provided for target").data)
  else if f.tgtBucket = [] then some (("--bucket not specified for target.").data)
  else if f.srcEndpoint = [] then some (("--src-endpoint is not provided").data)
  else if f.srcAccessKey = [] then some (("--src-access-key is not provided").data)
  else if f.srcSecretKey = [] then some (("--src-secret-key is not provided").data)
  else if f.srcBucket = [] then some (("--src-bucket not specified.").data)
  else if f.dirPath = [] then some (("path to working dir required, please set --data-dir flag").data)
  else none

/-- Behaviour of the fallible externals used by `copyAction`: whether
`url.Parse` and `miniogo.New` succeed on a given endpoint string, and the
manifest file as its list of lines (`none` when `os.Open` fails). -/
structure ExternalWorld where
  urlParseOk : List Char → Bool
  minioNewOk : List Char → Bool
  manifest : Option (List (List Char))

/-- Result of `initMinioClient`. -/
inductive InitResult where
  | ok
  | err (msg : List Char)
deriving DecidableEq, Repr

/-- `initMinioClient` (source lines 149–193): `url.Parse` failure, then the
empty-credential check, then `miniogo.New`; any failure returns an error to
the caller. -/
def initMinioClient (w : ExternalWorld) (accessKey secretKey bucket urlStr : List Char) :
    InitResult :=
  if w.urlParseOk urlStr = false then
    .err (("unable to parse input arg ").data ++ urlStr)
  else if accessKey = [] ∨ secretKey = [] ∨ bucket = [] then
    .err (("one or more of AccessKey SecretKey Bucket are missing in MinIO configuration for ").data ++ urlStr)
  else if w.minioNewOk urlStr = false then
    .err (("minio client error for ").data ++ urlStr)
  else .ok

/-- Externally visible steps of one `copyAction` run. -/
inductive Step where
  | fatalExit (msg : List Char)
  | returnErr (msg : List Char)
  | coreConstructed
  | scanEvent (e : Event)
  | panicked
  | drained
  | summaryPrinted (dryRun : Bool)
deriving DecidableEq, Repr

/-- `copyAction` (source lines 195–249) as the trace of its externally
visible steps: flag checking, source then target client construction
(returning an error aborts the run), construction and initialization of
`copyState` (the core), opening the manifest (a failure is a fatal exit),
the scan loop, and — when no line panicked — `copyState.finish` (drain)
followed by the final report.  Scanner read errors are not modelled: the
manifest is given as its list of lines. -/
def copyAction (f : Flags) (w : ExternalWorld) : List Step :=
  match checkCopyArgsAndInit f with
  | some m => [.fatalExit m]
  | none =>
    match initMinioClient w f.srcAccessKey f.srcSecretKey f.srcBucket f.srcEndpoint with
    | .err m => [.returnErr (("could not initialize src client ").data ++ m)]
    | .ok =>
      match initMinioClient w f.tgtAccessKey f.tgtSecretKey f.tgtBucket f.tgtEndpoint with
      | .err m => [.returnErr (("could not initialize tgt client ").data ++ m)]
      | .ok =>
        .coreConstructed ::
        match w.manifest with
        | none => [.fatalExit (("--input-file needs to be specified").data)]
        | some lines =>
          match runScan lines f.skip with
          | (evs, true) => evs.map .scanEvent ++ [.panicked]
          | (evs, false) => evs.map .scanEvent ++ [.drained, .summaryPrinted f.fake]

theorem fullSplitAux_ne_nil : ∀ (s acc : List Char), fullSplitAux acc s ≠ [] := by
  intro s
  induction s with
  | nil => intro acc; simp [fullSplitAux]
  | cons c cs ih =>
    intro acc
    by_cases hc : c = ','
    · simp [fullSplitAux, hc]
    · simpa [fullSplitAux, hc] using ih (c :: acc)

theorem joinComma_cons (x : List Char) (l : List (List Char)) (h : l ≠ []) :
    joinComma (x :: l) = x ++ ',' :: joinComma l := by
  cases l with
  | nil => exact absurd rfl h
  | cons y ys => rfl

theorem joinComma_fullSplitAux :
    ∀ (s acc : List Char), joinComma (fullSplitAux acc s) = acc.reverse ++ s := by
  intro s
  induction s with
  | nil => intro acc; simp [fullSplitAux, joinComma]
  | cons c cs ih =>
    intro acc
    by_cases hc : c = ','
    · subst hc
      rw [show fullSplitAux acc (',' :: cs) = acc.reverse :: fullSplitAux [] cs from by
        simp [fullSplitAux]]
      rw [joinComma_cons _ _ (fullSplitAux_ne_nil cs [])]
      rw [ih []]
      simp
    · rw [show fullSplitAux acc (c :: cs) = fullSplitAux (c :: acc) cs from by
        simp [fullSplitAux, hc]]
      rw [ih (c :: acc)]
      simp

/-- Splitting a line back together: the comma-join of all its fields is the
line itself. -/
theorem joinComma_fullSplit (s : List Char) : joinComma (fullSplit s) = s :=
  joinComma_fullSplitAux s []

theorem goSplitNAux_zero : ∀ (s acc : List Char), goSplitNAux acc s 0 = [acc.reverse ++ s] := by
  intro s acc
  cases s with
  | nil => simp [goSplitNAux]
  | cons c cs => rfl

/-- The bounded split in terms of the unbounded one: with at most `n + 1`
pieces allowed, the first `n` fields are kept and the remaining fields stay
joined in the last piece. -/
theorem goSplitNAux_eq :
    ∀ (s acc : List Char) (n : Nat),
      goSplitNAux acc s n =
        if (fullSplitAux acc s).length ≤ n + 1 then fullSplitAux acc s
        else (fullSplitAux acc s).take n ++ [joinComma ((fullSplitAux acc s).drop n)] := by
  intro s
  induction s with
  | nil =>
    intro acc n
    simp [goSplitNAux, fullSplitAux]
  | cons c cs ih =>
    intro acc n
    cases n with
    | zero =>
      rw [goSplitNAux_zero]
      rcases hF : fullSplitAux acc (c :: cs) with _ | ⟨x, l⟩
      · exact absurd hF (fullSplitAux_ne_nil _ _)
      · have hjoin : joinComma (x :: l) = acc.reverse ++ c :: cs := by
          rw [← hF]; exact joinComma_fullSplitAux (c :: cs) acc
        cases l with
        | nil => simp [joinComma] at hjoin; simp [hjoin]
        | cons y ys =>
          rw [if_neg (by simp)]
          simp [hjoin]
    | succ m =>
      by_cases hc : c = ','
      · subst hc
        have hF : fullSplitAux acc (',' :: cs) = acc.reverse :: fullSplitAux [] cs := by
          simp [fullSplitAux]
        have hG : goSplitNAux acc (',' :: cs) (m + 1) = acc.reverse :: goSplitNAux [] cs m := by
          simp [goSplitNAux]
        rw [hG, hF, ih [] m]
        by_cases hL : (fullSplitAux [] cs).length ≤ m + 1
        · rw [if_pos hL, if_pos (by simp; omega)]
        · rw [if_neg hL, if_neg (by simp; omega)]
          simp [List.take_succ_cons, List.drop_succ_cons]
      · have hF : fullSplitAux acc (c :: cs) = fullSplitAux (c :: acc) cs := by
          simp [fullSplitAux, hc]
        have hG : goSplitNAux acc (c :: cs) (m + 1) = goSplitNAux (c :: acc) cs (m + 1) := by
          simp [goSplitNAux, hc]
        rw [hG, hF]
        exact ih (c :: acc) (m + 1)

/-- `strings.SplitN(s, ",", 4)` keeps the first three fields and joins every
further field into the fourth piece. -/
theorem goSplitN_four (s : List Char) :
    goSplitN s 4 =
      if (fullSplit s).length ≤ 4 then fullSplit s
      else (fullSplit s).take 3 ++ [joinComma ((fullSplit s).drop 3)] :=
  goSplitNAux_eq s [] 3

theorem one_le_length_fullSplit (s : List Char) : 1 ≤ (fullSplit s).length := by
  rcases h : fullSplit s with _ | ⟨x, l⟩
  · exact absurd h (fullSplitAux_ne_nil s [])
  · simp

/-- `strings.SplitN(s, ",", 4)` returns at least 1 and at most 4 pieces; in
particular the branch `len(slc) > 4` of the malformed-line check can never
be taken. -/
theorem length_goSplitN_four (s : List Char) :
    1 ≤ (goSplitN s 4).length ∧ (goSplitN s 4).length ≤ 4 := by
  rw [goSplitN_four]
  by_cases hL : (fullSplit s).length ≤ 4
  · rw [if_pos hL]
    exact ⟨one_le_length_fullSplit s, hL⟩
  · rw [if_neg hL]
    simp

/-- When the line has at most 4 fields, the capped split returns exactly the
fields. -/
theorem goSplitN_four_of_le (s : List Char) (h : (fullSplit s).length ≤ 4) :
    goSplitN s 4 = fullSplit s := by
  rw [goSplitN_four, if_pos h]

/-- When the line has at least 5 fields, the capped split returns 4 pieces:
the first three fields and the comma-join of the rest. -/
theorem goSplitN_four_of_ge (s : List Char) (h : 5 ≤ (fullSplit s).length) :
    goSplitN s 4 = (fullSplit s).take 3 ++ [joinComma ((fullSplit s).drop 3)] := by
  rw [goSplitN_four, if_neg (by omega)]

example : goSplitN (("a,b,c,d,e").data) 4 =
    [("a").data, ("b").data, ("c").data, ("d,e").data] := by decide

example : goSplitN (("b1,k1,v1").data) 4 =
    [("b1").data, ("k1").data, ("v1").data] := by decide

example : processLine (("b1,k1,v1").data) = .panic false 3 := by decide

example : processLine (("bucketOnly").data) = .panic true 1 := by decide

example : processLine (("a,b,c, true ").data) =
    .ok false ⟨("a").data, ("b").data, ("c").data, true⟩ := by decide

example : fullSplit (("a,,b").data) = [("a").data, [], ("b").data] := by decide

/-- With at least four fields, the capped split keeps the first three fields
and joins the rest into the fourth piece. -/
theorem goSplitN_four_cons (o : List Char) (a b c : List Char) (rest : List (List Char))
    (hF : fullSplit o = a :: b :: c :: rest) (h : rest ≠ []) :
    goSplitN o 4 = [a, b, c, joinComma rest] := by
  rcases rest with _ | ⟨d, rest'⟩
  · exact absurd rfl h
  rcases rest' with _ | ⟨e, rest''⟩
  · rw [goSplitN_four_of_le o (by rw [hF]; rfl)]
    rw [hF]
    rfl
  · rw [goSplitN_four_of_ge o (by rw [hF]; simp)]
    rw [hF]
    rfl

/-- A line whose field count is at least 5 always parses into 4 pieces, so
the malformed-line condition is false for it. -/
theorem processLine_excess (o : List Char) (a b c : List Char) (rest : List (List Char))
    (hF : fullSplit o = a :: b :: c :: rest) (h : rest ≠ []) :
    processLine o = .ok false ⟨trimSpace a, trimSpace b, trimSpace c,
      decide (trimSpace (joinComma rest) = trueLit)⟩ := by
  have hs := goSplitN_four_cons o a b c rest hF h
  simp [processLine, hs]

/-- Claim C1: for every manifest line, the parsed record takes bucket,
object and versionID from the first three trimmed fields, and the
delete-marker flag is true iff a 4th field is present and trims to "true";
in particular a line with exactly 3 fields is claimed to yield a record
with deleteMarker = false rather than failing.  The code instead panics:
on the 3-field line "b1,k1,v1" the split has length 3, the malformed check
passes (3 is within bounds, so nothing is logged), and evaluating `slc[3]`
for the deleteMarker field is an index-out-of-range run-time panic at
index 3. -/
theorem c1_three_field_line_panics :
    (fullSplit (("b1,k1,v1").data)).length = 3 ∧
    processLine (("b1,k1,v1").data) = .panic false 3 := by
  exact ⟨by decide, by decide⟩

/-- Claim C2: lines with fewer than 3 or more than 4 fields are claimed to
be logged as malformed and skipped, non-fatally.  The code instead: a
1-field line is logged as malformed but then still processed, which
panics the process at index 1 (fatal); a 5-field line is never detected
(the split is capped at 4 pieces) and is enqueued as a record. -/
theorem c2_malformed_line_behaviour :
    runScan [("bucketOnly").data] 0 = ([.logMalformed (("bucketOnly").data)], true) ∧
    runScan [("b1,k1,v1,false,extra").data] 0 =
      ([.enqueue ⟨("b1").data, ("k1").data, ("v1").data, false⟩,
        .logAdding (("b1,k1,v1,false,extra").data)], false) := by
  exact ⟨by decide, by decide⟩

/-- Claim C3 counterexample: with skip = 1 over the manifest
["malformed", "sb,key,vid,true"], the claim says the first well-formed
line "sb,key,vid,true" is the one ignored, so nothing would be enqueued;
the code instead consumes the malformed first line with the skip counter
and enqueues the well-formed second line. -/
theorem c3_counterexample_skip_consumes_malformed_line :
    runScan [("malformed").data, ("sb,key,vid,true").data] 1 =
      ([.enqueue ⟨("sb").data, ("key").data, ("vid").data, true⟩,
        .logAdding (("sb,key,vid,true").data)], false) := by
  decide

/-- Claim C3 as amended: for every manifest and skip offset S, the scan
with offset S behaves exactly as the scan of the manifest with its first S
lines removed, well-formed or not: the skipped lines are ignored entirely
(no events, nothing enqueued) and all subsequent lines are processed
normally. -/
theorem c3_amended_skip_drops_first_lines (lines : List (List Char)) (S : Nat) :
    runScan lines S = runScan (lines.drop S) 0 := by
  induction lines generalizing S with
  | nil => cases S <;> rfl
  | cons o rest ih =>
    cases S with
    | zero => rfl
    | succ k =>
      rw [show runScan (o :: rest) (k + 1) = runScan rest k from rfl, ih k,
        List.drop_succ_cons]

/-- Claim C4: once the core has started, the run is claimed to always
complete drain and print a final summary.  With every flag present, both
clients constructed, and the manifest consisting of the single 3-field
line "b1,k1,v1", the code constructs the core and then panics in the scan
loop: the trace ends in a panic with no drain and no summary. -/
theorem c4_three_field_line_crashes_run :
    copyAction
      ⟨("te").data, ("ta").data, ("ts").data, ("tb").data,
       ("se").data, ("sa").data, ("ss").data, ("sb").data,
       ("dir").data, 0, false⟩
      ⟨fun _ => true, fun _ => true, some [("b1,k1,v1").data]⟩ =
      [.coreConstructed, .panicked] := by
  decide

/-- Claim C8 counterexample: an unreadable manifest file is a fatal
configuration error, but the code reaches it only after `newcopyState` and
`copyState.init` have run: with all flags present and both clients
constructed, the trace constructs the core first and exits fatally
second. -/
theorem c8_counterexample_core_before_manifest_fatal :
    copyAction
      ⟨("te2").data, ("ta2").data, ("ts2").data, ("tb2").data,
       ("se2").data, ("sa2").data, ("ss2").data, ("sb2").data,
       ("dir2").data, 0, false⟩
      ⟨fun _ => true, fun _ => true, none⟩ =
      [.coreConstructed, .fatalExit (("--input-file needs to be specified").data)] := by
  decide

/-- Claim C10: a manifest line with more than 4 comma-separated fields is
never detected or logged as malformed — the split is capped at 4 pieces, so
its length is exactly 4 — and the line is always enqueued as a record whose
bucket, object and versionID are the trimmed first three fields and whose
delete-marker flag is the comparison of the trimmed comma-join of the
fields from the 4th onward with "true". -/
theorem c10_excess_fields_enqueued (o : List Char) (h : 5 ≤ (fullSplit o).length) :
    processLine o = .ok false
      ⟨trimSpace ((fullSplit o).getD 0 []),
       trimSpace ((fullSplit o).getD 1 []),
       trimSpace ((fullSplit o).getD 2 []),
       decide (trimSpace (joinComma ((fullSplit o).drop 3)) = trueLit)⟩ := by
  rcases hF : fullSplit o with _ | ⟨a, l⟩
  · exact absurd hF (fullSplitAux_ne_nil o [])
  rcases l with _ | ⟨b, l⟩
  · rw [hF] at h; simp at h
  rcases l with _ | ⟨c, l⟩
  · rw [hF] at h; simp at h
  have hlen : 5 ≤ (a :: b :: c :: l).length := hF ▸ h
  have hne : l ≠ [] := by
    intro he
    rw [he] at hlen
    simp at hlen
  rw [processLine_excess o a b c l hF hne]
  simp

/-- Witness for C10 at the concrete 5-field line "wb,wk,wv,true,x": the
trimmed 4th piece is "true,x", not "true", so the flag is false and the
line is enqueued without any malformed log. -/
theorem c10_witness :
    processLine (("wb,wk,wv,true,x").data) =
      .ok false ⟨("wb").data, ("wk").data, ("wv").data, false⟩ := by
  rw [c10_excess_fields_enqueued (("wb,wk,wv,true,x").data) (by decide)]
  decide

theorem runLedger_cons (init : Ledger) (t : TaskOutcome) (ts : List TaskOutcome) :
    runLedger init (t :: ts) = runLedger (init.record t) ts := rfl

theorem record_processed (l : Ledger) (t : TaskOutcome) :
    (l.record t).processed = l.processed + 1 := by
  cases l; cases t <;> rfl

theorem runLedger_processed : ∀ (ts : List TaskOutcome) (init : Ledger),
    (runLedger init ts).processed = init.processed + ts.length := by
  intro ts
  induction ts with
  | nil => intro init; rfl
  | cons t ts ih =>
    intro init
    rw [runLedger_cons, ih, record_processed, List.length_cons]
    omega

theorem runLedger_failed : ∀ (ts : List TaskOutcome) (init : Ledger),
    (runLedger init ts).failed = init.failed + countFailures ts := by
  intro ts
  induction ts with
  | nil => intro init; rfl
  | cons t ts ih =>
    intro init
    rw [runLedger_cons, ih]
    cases init with
    | mk p f => cases t <;> (simp [Ledger.record, countFailures]; try omega)

theorem countFailures_le_length : ∀ ts : List TaskOutcome, countFailures ts ≤ ts.length := by
  intro ts
  induction ts with
  | nil => simp [countFailures]
  | cons t ts ih =>
    cases t <;> (simp [countFailures]; omega)

/-- Claim C6: over any completion trace the ledger counters are
monotonically non-decreasing (every prefix of the trace yields
component-wise smaller counters), the processed counter grows by exactly
one per completed task and the failed counter by exactly one per failed
task (never decremented), and `failedCount() ≤ processedCount()` is
preserved. -/
theorem c6_ledger_invariants (init : Ledger) (ts : List TaskOutcome)
    (h : init.failed ≤ init.processed) :
    (runLedger init ts).processed = init.processed + ts.length ∧
    (runLedger init ts).failed = init.failed + countFailures ts ∧
    (runLedger init ts).failed ≤ (runLedger init ts).processed ∧
    ∀ (pre suf : List TaskOutcome), ts = pre ++ suf →
      (runLedger init pre).processed ≤ (runLedger init ts).processed ∧
      (runLedger init pre).failed ≤ (runLedger init ts).failed := by
  refine ⟨runLedger_processed ts init, runLedger_failed ts init, ?_, ?_⟩
  · rw [runLedger_processed, runLedger_failed]
    have := countFailures_le_length ts
    omega
  · intro pre suf hps
    subst hps
    rw [show runLedger init (pre ++ suf) = runLedger (runLedger init pre) suf from by
      simp [runLedger, List.foldl_append]]
    constructor
    · simp only [runLedger_processed]; omega
    · simp only [runLedger_failed]; omega

/-- Witness for C6 on a concrete session: initial counters (2, 1) and trace
[success, failure]. -/
theorem c6_witness :
    (1 : Nat) ≤ 2 ∧
    (runLedger ⟨2, 1⟩ [.success, .failure]).processed = 2 + 2 ∧
    (runLedger ⟨2, 1⟩ [.success, .failure]).failed ≤
      (runLedger ⟨2, 1⟩ [.success, .failure]).processed ∧
    (runLedger ⟨2, 1⟩ [.success]).processed ≤
      (runLedger ⟨2, 1⟩ [.success, .failure]).processed := by
  have H := c6_ledger_invariants ⟨2, 1⟩ [.success, .failure] (by decide)
  exact ⟨by decide, H.1, H.2.2.1, (H.2.2.2 [.success] [.failure] rfl).1⟩

theorem workerFold_processed : ∀ (rs : List ObjInfo) (d : Bool)
    (oc : ObjInfo → TaskOutcome) (st : Ledger × List GatewayCall),
    (rs.foldl (workerStep d oc) st).1.processed = st.1.processed + rs.length := by
  intro rs
  induction rs with
  | nil => intro d oc st; rfl
  | cons r rs ih =>
    intro d oc st
    rw [List.foldl_cons, ih]
    have hstep : (workerStep d oc st r).1.processed = st.1.processed + 1 := by
      cases d
      · by_cases hdm : r.deleteMarker <;> simp [workerStep, hdm, record_processed]
      · simp [workerStep, record_processed]
    rw [hstep, List.length_cons]
    omega

theorem workerFold_dry_calls : ∀ (rs : List ObjInfo) (oc : ObjInfo → TaskOutcome)
    (st : Ledger × List GatewayCall),
    (rs.foldl (workerStep true oc) st).2 = st.2 := by
  intro rs
  induction rs with
  | nil => intro oc st; rfl
  | cons r rs ih =>
    intro oc st
    rw [List.foldl_cons, ih]
    simp [workerStep]

/-- Claim C7: over any record list, a dry-run pass brings the processed
counter to exactly the value a live pass reaches (whatever the per-record
outcomes of the live pass are), and the dry-run pass issues zero Storage
Gateway calls. -/
theorem c7_dry_run_equivalence (rs : List ObjInfo)
    (outcome outcome' : ObjInfo → TaskOutcome) :
    (workerRun true outcome rs).1.processed = (workerRun false outcome' rs).1.processed ∧
    (workerRun true outcome rs).2 = [] := by
  constructor
  · rw [show workerRun true outcome rs = rs.foldl (workerStep true outcome) (⟨0, 0⟩, []) from rfl,
      show workerRun false outcome' rs = rs.foldl (workerStep false outcome') (⟨0, 0⟩, []) from rfl,
      workerFold_processed, workerFold_processed]
  · exact workerFold_dry_calls rs outcome (⟨0, 0⟩, [])

theorem digitChar_toNat (d : Nat) (h : d < 10) : (digitChar d).toNat = 48 + d := by
  interval_cases d <;> decide

theorem digitChar_ne_comma (d : Nat) (h : d < 10) : digitChar d ≠ ',' := by
  interval_cases d <;> decide

theorem valLE_natDecAux : ∀ (fuel n : Nat), n ≤ fuel → valLE (natDecAux fuel n) = n := by
  intro fuel
  induction fuel with
  | zero =>
    intro n h
    interval_cases n
    rfl
  | succ f ih =>
    intro n h
    cases n with
    | zero => rfl
    | succ m =>
      rw [show natDecAux (f + 1) (m + 1) =
          digitChar ((m + 1) % 10) :: natDecAux f ((m + 1) / 10) from rfl]
      rw [valLE, digitChar_toNat _ (Nat.mod_lt _ (by omega))]
      rw [ih ((m + 1) / 10) (by omega)]
      omega

theorem natDecAux_ne_comma : ∀ (fuel n : Nat), ∀ c ∈ natDecAux fuel n, c ≠ ',' := by
  intro fuel
  induction fuel with
  | zero => intro n c hc; simp [natDecAux] at hc
  | succ f ih =>
    intro n c hc
    cases n with
    | zero => simp [natDecAux] at hc
    | succ m =>
      rw [show natDecAux (f + 1) (m + 1) =
          digitChar ((m + 1) % 10) :: natDecAux f ((m + 1) / 10) from rfl] at hc
      rcases List.mem_cons.mp hc with h1 | h2
      · subst h1; exact digitChar_ne_comma _ (Nat.mod_lt _ (by omega))
      · exact ih _ c h2

theorem natDec_ne_comma (n : Nat) : ∀ c ∈ natDec n, c ≠ ',' := by
  intro c hc
  by_cases h0 : n = 0
  · subst h0
    simp [natDec] at hc
    subst hc
    decide
  · rw [natDec, if_neg h0, List.mem_reverse] at hc
    exact natDecAux_ne_comma n n c hc

theorem filter_groupRev : ∀ (l : List Char) (k : Nat), (∀ c ∈ l, c ≠ ',') →
    (groupRev l k).filter notComma = l := by
  intro l
  induction l with
  | nil => intro k h; simp [groupRev]
  | cons c cs ih =>
    intro k h
    have hc : notComma c = true := by
      simp [notComma, h c (by simp)]
    have hcs : ∀ x ∈ cs, x ≠ ',' := fun x hx => h x (by simp [hx])
    cases cs with
    | nil => simp [groupRev, List.filter, hc]
    | cons c2 cs2 =>
      cases k with
      | zero =>
        rw [show groupRev (c :: c2 :: cs2) 0 = c :: ',' :: groupRev (c2 :: cs2) 2 from rfl]
        rw [List.filter_cons, List.filter_cons]
        rw [hc]
        rw [show notComma ',' = false from rfl]
        simp
        exact ih 2 hcs
      | succ k2 =>
        rw [show groupRev (c :: c2 :: cs2) (k2 + 1) = c :: groupRev (c2 :: cs2) k2 from rfl]
        rw [List.filter_cons, hc]
        simp
        exact ih k2 hcs

theorem filter_reverse_eq (p : Char → Bool) : ∀ l : List Char,
    l.reverse.filter p = (l.filter p).reverse := by
  intro l
  induction l with
  | nil => rfl
  | cons c cs ih =>
    rw [List.reverse_cons, List.filter_append, ih, List.filter_cons]
    by_cases hp : p c = true
    · simp [hp]
    · simp [hp]

theorem decommaVal_commaGroup (ds : List Char) (h : ∀ c ∈ ds, c ≠ ',') :
    decommaVal (commaGroup ds) = valLE ds.reverse := by
  rw [decommaVal, commaGroup, filter_reverse_eq, List.reverse_reverse]
  rw [filter_groupRev ds.reverse 2 (fun c hc => h c (List.mem_reverse.mp hc))]

theorem decommaVal_natDec (n : Nat) : decommaVal (commaGroup (natDec n)) = n := by
  rw [decommaVal_commaGroup (natDec n) (natDec_ne_comma n)]
  by_cases h0 : n = 0
  · subst h0; decide
  · rw [natDec, if_neg h0, List.reverse_reverse]
    exact valLE_natDecAux n n (le_refl n)

theorem humanizeComma_natCast (k : Nat) : humanizeComma (k : Int) = commaGroup (natDec k) := by
  rw [humanizeComma, if_neg (not_lt.mpr (Int.natCast_nonneg k))]
  rw [Int.toNat_natCast]

/-- Claim C5: after drain, the live-mode final line reports the succeeded
count, computed as `processedCount() - failedCount()`, against the
attempted count `processedCount()`, together with the elapsed time; the
two comma-grouped numbers in the line decode back to exactly those values.
In dry-run mode a fixed completion notice with no counts and no elapsed
time is printed instead, whatever the counters are. -/
theorem c5_final_report (p f : Nat) (l : Int) (hf : f ≤ p) :
    finalReport true p f l = strDryRunComplete ∧
    (∀ (q g : Nat) (t : Int), finalReport true q g t = strDryRunComplete) ∧
    finalReport false p f l =
      ("Copied ").data ++ humanizeComma ((p : Int) - (f : Int)) ++ (" / ").data ++
      humanizeComma ((p : Int)) ++ (" objects with latency ").data ++
      intDec l ++ (" secs").data ∧
    decommaVal (humanizeComma ((p : Int) - (f : Int))) = p - f ∧
    decommaVal (humanizeComma ((p : Int))) = p := by
  refine ⟨rfl, fun q g t => rfl, rfl, ?_, ?_⟩
  · have hcast : (p : Int) - (f : Int) = ((p - f : Nat) : Int) := by omega
    rw [hcast, humanizeComma_natCast, decommaVal_natDec]
  · rw [humanizeComma_natCast, decommaVal_natDec]

/-- Witness for C5 at processed = 1234, failed = 34, latency = 5: the
succeeded number printed is the comma-grouping of 1200. -/
theorem c5_witness :
    34 ≤ 1234 ∧
    decommaVal (humanizeComma ((1234 : Int) - (34 : Int))) = 1200 ∧
    finalReport true 1234 34 5 = strDryRunComplete := by
  have H := c5_final_report 1234 34 5 (by omega)
  exact ⟨by omega, H.2.2.2.1, H.1⟩

/-- Claim C8 as amended: a missing required flag terminates the process
with a fatal error before the core is constructed (the trace is the fatal
exit alone); an unreadable manifest file also terminates the process with
a fatal error, but only after the core (`copyState`) has been constructed
and initialized. -/
theorem c8_amended_fatal_config_ordering (f : Flags) (w : ExternalWorld) :
    (∀ m, checkCopyArgsAndInit f = some m → copyAction f w = [.fatalExit m]) ∧
    (checkCopyArgsAndInit f = none →
      initMinioClient w f.srcAccessKey f.srcSecretKey f.srcBucket f.srcEndpoint = .ok →
      initMinioClient w f.tgtAccessKey f.tgtSecretKey f.tgtBucket f.tgtEndpoint = .ok →
      w.manifest = none →
      copyAction f w =
        [.coreConstructed, .fatalExit (("--input-file needs to be specified").data)]) := by
  constructor
  · intro m hm
    unfold copyAction
    rw [hm]
  · intro hargs hsrc htgt hman
    unfold copyAction
    rw [hargs, hsrc, htgt, hman]

/-- Witness for C8 as amended: a missing target endpoint exits before core
construction; an unopenable manifest exits after it. -/
theorem c8_amended_witness :
    copyAction
      ⟨[], ("x1").data, ("x2").data, ("x3").data,
       ("x4").data, ("x5").data, ("x6").data, ("x7").data,
       ("x8").data, 0, false⟩
      ⟨fun _ => true, fun _ => true, some []⟩ =
      [.fatalExit (("--endpoint is not provided for target").data)] ∧
    copyAction
      ⟨("y1").data, ("y2").data, ("y3").data, ("y4").data,
       ("y5").data, ("y6").data, ("y7").data, ("y8").data,
       ("y9").data, 0, false⟩
      ⟨fun _ => true, fun _ => true, none⟩ =
      [.coreConstructed, .fatalExit (("--input-file needs to be specified").data)] := by
  constructor
  · exact (c8_amended_fatal_config_ordering _ _).1 _ (by decide)
  · exact (c8_amended_fatal_config_ordering _ _).2 (by decide) (by decide) (by decide) rfl

/-- Claim C9: when construction of the source or the target client fails,
`copyAction` returns an error immediately: the trace is a single returned
error, so no record is ever enqueued or processed and the core is never
constructed. -/
theorem c9_gateway_init_failure_aborts (f : Flags) (w : ExternalWorld)
    (hargs : checkCopyArgsAndInit f = none)
    (hfail :
      (∃ m, initMinioClient w f.srcAccessKey f.srcSecretKey f.srcBucket f.srcEndpoint = .err m) ∨
      (∃ m, initMinioClient w f.tgtAccessKey f.tgtSecretKey f.tgtBucket f.tgtEndpoint = .err m)) :
    (∃ m, copyAction f w = [.returnErr m]) ∧
    (∀ e, Step.scanEvent e ∉ copyAction f w) ∧
    Step.coreConstructed ∉ copyAction f w := by
  rcases hsrc : initMinioClient w f.srcAccessKey f.srcSecretKey f.srcBucket f.srcEndpoint
    with _ | m
  · rcases hfail with ⟨m, hm⟩ | ⟨m, hm⟩
    · rw [hsrc] at hm
      exact absurd hm (by simp)
    · have hca : copyAction f w =
          [.returnErr (("could not initialize tgt client ").data ++ m)] := by
        unfold copyAction
        rw [hargs, hsrc, hm]
      refine ⟨⟨_, hca⟩, ?_, ?_⟩ <;> simp [hca]
  · have hca : copyAction f w =
        [.returnErr (("could not initialize src client ").data ++ m)] := by
      unfold copyAction
      rw [hargs, hsrc]
    refine ⟨⟨_, hca⟩, ?_, ?_⟩ <;> simp [hca]

/-- Witness for C9: a source endpoint that does not parse aborts the run
with no core construction. -/
theorem c9_witness :
    Step.coreConstructed ∉ copyAction
      ⟨("z1").data, ("z2").data, ("z3").data, ("z4").data,
       ("z5").data, ("z6").data, ("z7").data, ("z8").data,
       ("z9").data, 0, false⟩
      ⟨fun _ => false, fun _ => true, some []⟩ :=
  (c9_gateway_init_failure_aborts _ _ (by decide)
    (.inl ⟨(("unable to parse input arg ").data ++ ("z5").data), by decide⟩)).2.2
